import Mathlib

/-!
Verification of the resilient external-API client core of the
TestProjectRkkBot2 repository.

The development shallowly embeds:
- the circuit breaker of NspdClient (src/app_bot/nspd_service/nspd_client.py);
- the token lifecycle of CRMClient (src/app_bot/crm_service/crm_client.py and
  the final revision src/app_bot/temp/exported_files/crm_client.py);
- the polygon-centroid computation of NspdClient;
- the additive file-attachment operations of the final CRMClient revision;
- the recursive employee-enrichment passes of the final CRMClient revision;
- the feature-parsing step of NspdClient.get_object_info together with the
  pydantic validation of CadastralObject (src/app_bot/nspd_service/schemas.py).

Machine times (datetime.now values, timedeltas, token lifetimes) are modelled
as integers; coordinates are modelled as rationals.
-/

/-! ### Circuit breaker state of NspdClient

Mirrors the CircuitState enum and the breaker fields set up in
NspdClient.__init__ (nspd_client.py lines 25-28 and 79-88). -/

inductive CircuitState where
  | CLOSED
  | OPEN
  | HALF_OPEN
  deriving DecidableEq

structure NspdBreaker where
  circuitState : CircuitState
  /-- timedelta(minutes=cooldown_minutes); time unit abstract. -/
  cooldownPeriod : Int
  /-- self._last_failure_time : datetime | None -/
  lastFailureTime : Option Int
  /-- self._failure_count -/
  failureCount : Nat
  /-- self._failure_threshold -/
  failureThreshold : Nat
  deriving DecidableEq

/-- NspdClient.__init__: CLOSED circuit, no recorded failure, counter 0,
threshold 2. -/
def NspdBreaker.init (cooldownMinutes : Int) : NspdBreaker :=
  { circuitState := .CLOSED
    cooldownPeriod := cooldownMinutes
    lastFailureTime := none
    failureCount := 0
    failureThreshold := 2 }

/-- NspdClient._handle_success (nspd_client.py lines 262-268): reset the
counter and close the circuit. -/
def handleSuccess (s : NspdBreaker) : NspdBreaker :=
  { s with failureCount := 0, circuitState := .CLOSED }

/-- NspdClient._handle_failure (nspd_client.py lines 270-287): on HALF_OPEN
reopen immediately; otherwise increment the counter and open the circuit once
the threshold is reached. -/
def handleFailure (now : Int) (s : NspdBreaker) : NspdBreaker :=
  if s.circuitState = .HALF_OPEN then
    { s with circuitState := .OPEN, lastFailureTime := some now }
  else
    let fc := s.failureCount + 1
    if s.failureThreshold ≤ fc then
      { s with failureCount := fc, circuitState := .OPEN, lastFailureTime := some now }
    else
      { s with failureCount := fc }

inductive GatePermit where
  | proceed
  | failFast
  deriving DecidableEq

/-- The guarded entry block of get_object_info (nspd_client.py lines 154-168).
Returns none when the code would evaluate now > None + cooldown, which raises
a TypeError in Python (OPEN circuit with absent last-failure time). -/
def breakerGate (now : Int) (s : NspdBreaker) : Option (NspdBreaker × GatePermit) :=
  if s.circuitState = .OPEN then
    match s.lastFailureTime with
    | none => none
    | some t =>
      if t + s.cooldownPeriod < now then
        some ({ s with circuitState := .HALF_OPEN }, .proceed)
      else
        some (s, .failFast)
  else
    some (s, .proceed)

/-- Outcome of the network request issued by get_object_info. -/
inductive NetOutcome where
  /-- httpx timeout/connect/status error or JSON decode error: handled by
  _handle_failure, returns None. -/
  | netError
  /-- 200 response whose data has features and parses into a valid model:
  handled by _handle_success, returns the object. -/
  | okFound
  /-- 200 response without data/features: handled by _handle_success,
  returns None. -/
  | okNotFound
  /-- 200 response whose later processing raises (caught by the generic
  except Exception after _handle_success already ran): returns None. -/
  | parseError
  deriving DecidableEq

inductive NspdEvent where
  | networkRequest
  | successHandled
  | failureHandled
  deriving DecidableEq

/-- Circuit-level behaviour of get_object_info (nspd_client.py lines 136-260):
gate check, then the network call with its success/failure accounting.
Result: new breaker state, whether an object is returned, and the trace of
network/handler events.  none models the TypeError path of breakerGate. -/
def getObjectInfoCircuit (now : Int) (outcome : NetOutcome) (s : NspdBreaker) :
    Option (NspdBreaker × Bool × List NspdEvent) :=
  match breakerGate now s with
  | none => none
  | some (s1, .failFast) => some (s1, false, [])
  | some (s1, .proceed) =>
    match outcome with
    | .netError => some (handleFailure now s1, false, [.networkRequest, .failureHandled])
    | .okFound => some (handleSuccess s1, true, [.networkRequest, .successHandled])
    | .okNotFound => some (handleSuccess s1, false, [.networkRequest, .successHandled])
    | .parseError => some (handleSuccess s1, false, [.networkRequest, .successHandled])

/-- One observable step of the NspdClient breaker: a get_object_info call,
or a bare invocation of either handler. -/
inductive NspdStep : NspdBreaker → NspdBreaker → Prop where
  | success (s : NspdBreaker) : NspdStep s (handleSuccess s)
  | failure (now : Int) (s : NspdBreaker) : NspdStep s (handleFailure now s)
  | call (now : Int) (outcome : NetOutcome) (s s1 : NspdBreaker) (r : Bool)
      (ev : List NspdEvent) :
      getObjectInfoCircuit now outcome s = some (s1, r, ev) → NspdStep s s1

/-- States reachable from construction by any sequence of steps. -/
inductive NspdReachable (cooldownMinutes : Int) : NspdBreaker → Prop where
  | init : NspdReachable cooldownMinutes (NspdBreaker.init cooldownMinutes)
  | step {s s1 : NspdBreaker} : NspdReachable cooldownMinutes s → NspdStep s s1 →
      NspdReachable cooldownMinutes s1


/-! ### Theorems for claims C3, C4, C9 -/

/-- Invariant preservation of _handle_failure: whenever the result is OPEN,
a last-failure time is recorded. -/
theorem handleFailure_open_has_time (now : Int) (s : NspdBreaker)
    (ih : s.circuitState = .OPEN → s.lastFailureTime ≠ none) :
    (handleFailure now s).circuitState = .OPEN →
      (handleFailure now s).lastFailureTime ≠ none := by
  obtain ⟨cs, cd, lf, fc, th⟩ := s
  unfold handleFailure
  by_cases h1 : cs = CircuitState.HALF_OPEN
  · simp [h1]
  · by_cases h2 : th ≤ fc + 1
    · simp [h1, h2]
    · simp only [h1, h2, if_false]
      exact ih

/-- Invariant preservation of the gate block of get_object_info. -/
theorem breakerGate_open_has_time (now : Int) (s s1 : NspdBreaker) (p : GatePermit)
    (h : breakerGate now s = some (s1, p))
    (ih : s.circuitState = .OPEN → s.lastFailureTime ≠ none) :
    s1.circuitState = .OPEN → s1.lastFailureTime ≠ none := by
  obtain ⟨cs, cd, lf, fc, th⟩ := s
  by_cases hop : cs = CircuitState.OPEN
  · subst hop
    rcases lf with _ | t
    · simp [breakerGate] at h
    · by_cases hc : t + cd < now
      · simp [breakerGate, hc] at h
        rw [← h.1]
        simp
      · simp [breakerGate, hc] at h
        rw [← h.1]
        simp
  · simp [breakerGate, hop] at h
    rw [← h.1]
    exact ih

/-- C3: with failureThreshold = 2, starting from CLOSED with failureCount 0,
recording two consecutive failures (_handle_failure) transitions the circuit
to OPEN and sets lastFailureTime to the time of the second failure; and every
get_object_info call made while the circuit is OPEN and now has not passed
lastFailureTime + cooldownPeriod returns None immediately, leaving the state
unchanged, with no network request and no success/failure handler invoked
(empty event trace). -/
theorem circuit_opens_after_threshold_and_fails_fast
    (s0 : NspdBreaker) (t1 t2 now : Int) (outcome : NetOutcome)
    (hst : s0.circuitState = .CLOSED) (hfc : s0.failureCount = 0)
    (hth : s0.failureThreshold = 2)
    (hcool : ¬ t2 + s0.cooldownPeriod < now) :
    (handleFailure t2 (handleFailure t1 s0)).circuitState = .OPEN ∧
    (handleFailure t2 (handleFailure t1 s0)).lastFailureTime = some t2 ∧
    getObjectInfoCircuit now outcome (handleFailure t2 (handleFailure t1 s0)) =
      some (handleFailure t2 (handleFailure t1 s0), false, []) := by
  obtain ⟨cs, cd, lf, fc, th⟩ := s0
  have hcs : cs = .CLOSED := hst
  have hfc2 : fc = 0 := hfc
  have hth2 : th = 2 := hth
  have hcool2 : ¬ t2 + cd < now := hcool
  subst hcs; subst hfc2; subst hth2
  have h2 : handleFailure t2 (handleFailure t1 ⟨.CLOSED, cd, lf, 0, 2⟩) =
      ⟨.OPEN, cd, some t2, 2, 2⟩ := by
    simp [handleFailure]
  refine ⟨by rw [h2], by rw [h2], ?_⟩
  rw [h2]
  simp [getObjectInfoCircuit, breakerGate, hcool2]

theorem circuit_opens_after_threshold_and_fails_fast_witness :
    (NspdBreaker.init 5).circuitState = .CLOSED ∧
    (handleFailure 1 (handleFailure 0 (NspdBreaker.init 5))).circuitState = .OPEN ∧
    (handleFailure 1 (handleFailure 0 (NspdBreaker.init 5))).lastFailureTime = some 1 ∧
    getObjectInfoCircuit 3 .okFound (handleFailure 1 (handleFailure 0 (NspdBreaker.init 5))) =
      some (handleFailure 1 (handleFailure 0 (NspdBreaker.init 5)), false, []) := by
  have h := circuit_opens_after_threshold_and_fails_fast (NspdBreaker.init 5) 0 1 3 .okFound
    (by decide) (by decide) (by decide) (by decide)
  exact ⟨by decide, h.1, h.2.1, h.2.2⟩

/-- C4: when the circuit is OPEN and a get_object_info call arrives with
now past lastFailureTime + cooldownPeriod, the gate transitions the circuit
to HALF_OPEN and lets the call proceed to the network; if the trial call
succeeds, _handle_success yields a CLOSED circuit with failureCount 0, from
which one further failure keeps the circuit CLOSED and a second failure
reopens it (failureThreshold = 2 further failures are again required). -/
theorem circuit_recovers_after_cooldown
    (s : NspdBreaker) (t now : Int)
    (hst : s.circuitState = .OPEN) (hlt : s.lastFailureTime = some t)
    (hth : s.failureThreshold = 2)
    (hcool : t + s.cooldownPeriod < now) :
    breakerGate now s = some ({ s with circuitState := .HALF_OPEN }, .proceed) ∧
    getObjectInfoCircuit now .okFound s =
      some (handleSuccess { s with circuitState := .HALF_OPEN }, true,
        [.networkRequest, .successHandled]) ∧
    (handleSuccess { s with circuitState := .HALF_OPEN }).circuitState = .CLOSED ∧
    (handleSuccess { s with circuitState := .HALF_OPEN }).failureCount = 0 ∧
    (∀ u1 : Int,
      (handleFailure u1 (handleSuccess { s with circuitState := .HALF_OPEN })).circuitState
        = .CLOSED) ∧
    (∀ u1 u2 : Int,
      (handleFailure u2 (handleFailure u1
        (handleSuccess { s with circuitState := .HALF_OPEN }))).circuitState = .OPEN) := by
  obtain ⟨cs, cd, lf, fc, th⟩ := s
  have hcs : cs = .OPEN := hst
  have hlf : lf = some t := hlt
  have hth2 : th = 2 := hth
  have hcool2 : t + cd < now := hcool
  subst hcs; subst hlf; subst hth2
  have hgate : breakerGate now ⟨.OPEN, cd, some t, fc, 2⟩ =
      some (⟨.HALF_OPEN, cd, some t, fc, 2⟩, .proceed) := by
    simp [breakerGate, hcool2]
  have hsucc : handleSuccess ⟨.HALF_OPEN, cd, some t, fc, 2⟩ =
      ⟨.CLOSED, cd, some t, 0, 2⟩ := by
    simp [handleSuccess]
  refine ⟨hgate, ?_, by rw [hsucc], by rw [hsucc], ?_, ?_⟩
  · simp only [getObjectInfoCircuit, hgate]
  · intro u1
    rw [hsucc]
    simp [handleFailure]
  · intro u1 u2
    rw [hsucc]
    simp [handleFailure]

theorem circuit_recovers_after_cooldown_witness :
    breakerGate 10 ⟨.OPEN, 5, some 1, 2, 2⟩ =
      some (⟨.HALF_OPEN, 5, some 1, 2, 2⟩, .proceed) ∧
    getObjectInfoCircuit 10 .okFound ⟨.OPEN, 5, some 1, 2, 2⟩ =
      some (⟨.CLOSED, 5, some 1, 0, 2⟩, true, [.networkRequest, .successHandled]) ∧
    (handleFailure 21 (handleFailure 20 (handleSuccess
      ⟨.HALF_OPEN, 5, some 1, 2, 2⟩))).circuitState = .OPEN := by
  have h := circuit_recovers_after_cooldown ⟨.OPEN, 5, some 1, 2, 2⟩ 1 10
    (by decide) (by decide) (by decide) (by decide)
  refine ⟨h.1, ?_, h.2.2.2.2.2 20 21⟩
  have h2 := h.2.1
  simpa [handleSuccess] using h2

/-- C9: in every NspdClient breaker state reachable from construction by
get_object_info, _handle_success and _handle_failure steps, an OPEN circuit
implies a recorded last-failure time, so the fail-fast check of
get_object_info never evaluates the cooldown bound against an absent
timestamp (the gate and the full call always take a defined branch). -/
theorem open_circuit_has_failure_time
    (cooldownMinutes : Int) (s : NspdBreaker)
    (hreach : NspdReachable cooldownMinutes s) :
    (s.circuitState = .OPEN → s.lastFailureTime ≠ none) ∧
    (∀ now : Int, (breakerGate now s).isSome) ∧
    (∀ now : Int, ∀ outcome : NetOutcome,
      (getObjectInfoCircuit now outcome s).isSome) := by
  have key : s.circuitState = .OPEN → s.lastFailureTime ≠ none := by
    induction hreach with
    | init => intro h; simp [NspdBreaker.init] at h
    | @step s s1 hr hstep ih =>
      cases hstep with
      | success s => intro h; simp [handleSuccess] at h
      | failure now s => exact handleFailure_open_has_time now s ih
      | call now outcome s s1 r ev hcall =>
        rcases hg : breakerGate now s with _ | ⟨sg, p⟩
        · rw [getObjectInfoCircuit, hg] at hcall; exact absurd hcall (by simp)
        · have hginv := breakerGate_open_has_time now s sg p hg ih
          rw [getObjectInfoCircuit, hg] at hcall
          cases p with
          | failFast =>
            simp only [Option.some.injEq, Prod.mk.injEq] at hcall
            rw [← hcall.1]
            exact hginv
          | proceed =>
            cases outcome <;>
              simp only [Option.some.injEq, Prod.mk.injEq] at hcall <;>
              rw [← hcall.1]
            · exact handleFailure_open_has_time now sg hginv
            · intro h; simp [handleSuccess] at h
            · intro h; simp [handleSuccess] at h
            · intro h; simp [handleSuccess] at h
  have gate : ∀ now : Int, (breakerGate now s).isSome := by
    intro now
    unfold breakerGate
    by_cases hop : s.circuitState = .OPEN
    · rcases hlt : s.lastFailureTime with _ | t
      · exact absurd hlt (key hop)
      · simp only [hop, if_pos]
        split_ifs <;> simp
    · simp [hop]
  refine ⟨key, gate, ?_⟩
  intro now outcome
  rw [getObjectInfoCircuit]
  rcases hg : breakerGate now s with _ | ⟨s1, p⟩
  · exact absurd (gate now) (by simp [hg])
  · cases p <;> cases outcome <;> simp

theorem open_circuit_has_failure_time_witness :
    ((handleFailure 1 (handleFailure 0 (NspdBreaker.init 5))).circuitState = .OPEN →
      (handleFailure 1 (handleFailure 0 (NspdBreaker.init 5))).lastFailureTime ≠ none) ∧
    (breakerGate 2 (handleFailure 1 (handleFailure 0 (NspdBreaker.init 5)))).isSome := by
  have hreach : NspdReachable 5 (handleFailure 1 (handleFailure 0 (NspdBreaker.init 5))) :=
    NspdReachable.step (NspdReachable.step NspdReachable.init (NspdStep.failure 0 _))
      (NspdStep.failure 1 _)
  have h := open_circuit_has_failure_time 5 _ hreach
  exact ⟨h.1, h.2.1 2⟩

/-! ### Token lifecycle of CRMClient

Mirrors _login, _is_token_valid, get_access_token and the 401 branch of
_request (crm_client.py; identical in both revisions except for headers). -/

structure CRMTokenState where
  /-- self._access_token : str | None -/
  accessToken : Option String
  /-- self._token_expires_at : datetime | None -/
  tokenExpiresAt : Option Int
  deriving DecidableEq

/-- CRMClient.__init__: no token, no expiry. -/
def CRMTokenState.init : CRMTokenState := { accessToken := none, tokenExpiresAt := none }

/-- Python truthiness of the optional token string: None and "" are falsy. -/
def tokenTruthy : Option String → Bool
  | none => false
  | some t => t ≠ ""

/-- Observable outcome of the login POST issued by _login. -/
inductive LoginResponse where
  /-- 2xx JSON body: its optional access_token and expires_in fields. -/
  | ok (accessToken : Option String) (expiresIn : Option Int)
  /-- raise_for_status threw, or the request/JSON decoding failed. -/
  | err
  deriving DecidableEq

/-- CRMClient._login (crm_client.py lines 37-97): store the token from the
response; when it is falsy clear the expiry and fail; otherwise set
expiry = now + (expires_in − 60) with default lifetime 3600 and the 60-second
buffer; on any error clear both fields and fail. -/
def loginStep (now : Int) (resp : LoginResponse) (_s : CRMTokenState) :
    CRMTokenState × Bool :=
  match resp with
  | .ok tok expIn =>
    if tokenTruthy tok then
      ({ accessToken := tok, tokenExpiresAt := some (now + (expIn.getD 3600 - 60)) }, true)
    else
      ({ accessToken := tok, tokenExpiresAt := none }, false)
  | .err => ({ accessToken := none, tokenExpiresAt := none }, false)

/-- CRMClient._is_token_valid (crm_client.py lines 99-105):
bool(token and expiry and expiry > now). -/
def isTokenValid (now : Int) (s : CRMTokenState) : Bool :=
  tokenTruthy s.accessToken &&
    match s.tokenExpiresAt with
    | none => false
    | some e => now < e

/-- CRMClient.get_access_token (crm_client.py lines 107-118), run under the
lock: return the held token if valid, otherwise perform the login exchange.
Result: new state, returned token, and whether a login was performed. -/
def getAccessToken (now : Int) (resp : LoginResponse) (s : CRMTokenState) :
    CRMTokenState × Option String × Bool :=
  if isTokenValid now s then (s, s.accessToken, false)
  else
    let (s1, ok) := loginStep now resp s
    if ok then (s1, s1.accessToken, true) else (s1, none, true)

/-- Observable outcome of the HTTP request issued by _request once a token
is held. -/
inductive HttpOutcome where
  /-- 2xx with a JSON body (opaque body id). -/
  | ok (body : Nat)
  /-- raise_for_status threw with this status code. -/
  | statusError (code : Nat)
  /-- httpx.RequestError or any other exception. -/
  | reqFailure
  deriving DecidableEq

/-- CRMClient._request (crm_client.py lines 127-174): acquire a token (None
short-circuits), issue the request, return its JSON body on success; on an
HTTP status error clear the stored access token when the code is 401; every
error path returns None. -/
def crmRequest (now : Int) (resp : LoginResponse) (outcome : HttpOutcome)
    (s : CRMTokenState) : CRMTokenState × Option Nat :=
  match getAccessToken now resp s with
  | (s1, none, _) => (s1, none)
  | (s1, some _, _) =>
    match outcome with
    | .ok body => (s1, some body)
    | .statusError code =>
      if code = 401 then ({ s1 with accessToken := none }, none) else (s1, none)
    | .reqFailure => (s1, none)

/-! ### Theorems for claims C5, C6 -/

/-- C5: if get_access_token performs a successful login at time now storing a
(non-empty) token t, the stored expiry is now + lifetime − 60; and every
subsequent get_access_token call made at a time before that stored expiry
returns t without performing another login exchange, whatever login response
it would have received — so two calls within the buffer-adjusted lifetime
window perform exactly one login. -/
theorem token_reuse_single_login
    (s0 : CRMTokenState) (now lifetime : Int) (t : String)
    (hinvalid : isTokenValid now s0 = false) (ht : t ≠ "") :
    getAccessToken now (.ok (some t) (some lifetime)) s0 =
      ({ accessToken := some t, tokenExpiresAt := some (now + (lifetime - 60)) },
        some t, true) ∧
    (∀ now1 : Int, ∀ resp1 : LoginResponse, now1 < now + (lifetime - 60) →
      getAccessToken now1 resp1
          { accessToken := some t, tokenExpiresAt := some (now + (lifetime - 60)) } =
        ({ accessToken := some t, tokenExpiresAt := some (now + (lifetime - 60)) },
          some t, false)) := by
  constructor
  · simp [getAccessToken, hinvalid, loginStep, tokenTruthy, ht]
  · intro now1 resp1 hlt
    have hvalid : isTokenValid now1
        { accessToken := some t, tokenExpiresAt := some (now + (lifetime - 60)) } = true := by
      simp [isTokenValid, tokenTruthy, ht, hlt]
    simp [getAccessToken, hvalid]

theorem token_reuse_single_login_witness :
    getAccessToken 0 (.ok (some "tok") (some 3600)) CRMTokenState.init =
      ({ accessToken := some "tok", tokenExpiresAt := some 3540 }, some "tok", true) ∧
    getAccessToken 1000 .err
        { accessToken := some "tok", tokenExpiresAt := some 3540 } =
      ({ accessToken := some "tok", tokenExpiresAt := some 3540 }, some "tok", false) := by
  have h := token_reuse_single_login CRMTokenState.init 0 3600 "tok"
    (by decide) (by decide)
  have h2 := h.2 1000 .err (by decide)
  constructor
  · have h1 := h.1
    simpa using h1
  · simpa using h2

/-- C6: a CRM request that receives an HTTP 401 response clears the stored
access token (keeping the stored expiry) and itself returns None; afterwards
every get_access_token call performs a fresh login exchange, at any time —
in particular even when the previously stored expiry has not passed. -/
theorem invalidation_forces_relogin
    (s : CRMTokenState) (now : Int) (resp : LoginResponse)
    (hvalid : isTokenValid now s = true) :
    crmRequest now resp (.statusError 401) s =
      ({ s with accessToken := none }, none) ∧
    (∀ now1 : Int, ∀ resp1 : LoginResponse,
      (getAccessToken now1 resp1 { s with accessToken := none }).2.2 = true) := by
  constructor
  · have htok : tokenTruthy s.accessToken = true := by
      unfold isTokenValid at hvalid
      exact ((Bool.and_eq_true _ _).mp hvalid).1
    rcases hta : s.accessToken with _ | tk
    · rw [hta] at htok; simp [tokenTruthy] at htok
    · simp [crmRequest, getAccessToken, hvalid, hta]
  · intro now1 resp1
    have hinv : isTokenValid now1 { s with accessToken := none } = false := by
      simp [isTokenValid, tokenTruthy]
    simp only [getAccessToken, hinv, Bool.false_eq_true, if_false]
    rcases loginStep now1 resp1 { s with accessToken := none } with ⟨s2, ok⟩
    cases ok <;> simp

theorem invalidation_forces_relogin_witness :
    crmRequest 0 .err (.statusError 401)
        { accessToken := some "tok", tokenExpiresAt := some 3540 } =
      ({ accessToken := none, tokenExpiresAt := some 3540 }, none) ∧
    (getAccessToken 1 (.ok (some "tok2") (some 3600))
        { accessToken := none, tokenExpiresAt := some 3540 }).2.2 = true := by
  have h := invalidation_forces_relogin
    { accessToken := some "tok", tokenExpiresAt := some 3540 } 0 .err (by decide)
  exact ⟨h.1, h.2 1 (.ok (some "tok2") (some 3600))⟩

/-! ### Polygon centroid of NspdClient

Mirrors _calculate_polygon_centroid (nspd_client.py lines 101-110).
Coordinates are rationals; a transformed vertex [lon, lat] is a pair. -/

/-- NspdClient._calculate_polygon_centroid: take the outer ring (first ring;
none models the IndexError on an empty ring list), let
num_points = len(outer_ring) − 1 (computed in Int, as in Python); if
num_points < 1 return the empty list, otherwise average the vertices of
outer_ring[:-1] component-wise. -/
def calculatePolygonCentroid (polygonWgs84 : List (List (ℚ × ℚ))) :
    Option (List ℚ) :=
  match polygonWgs84 with
  | [] => none
  | outerRing :: _ =>
    let numPoints : Int := (outerRing.length : Int) - 1
    if numPoints < 1 then some []
    else
      some [((outerRing.dropLast.map Prod.fst).sum) / (numPoints : ℚ),
            ((outerRing.dropLast.map Prod.snd).sum) / (numPoints : ℚ)]

/-- Specification-level arithmetic mean of a vertex list, component-wise. -/
def vertexMean (pts : List (ℚ × ℚ)) : List ℚ :=
  [((pts.map Prod.fst).sum) / (pts.length : ℚ),
   ((pts.map Prod.snd).sum) / (pts.length : ℚ)]

/-! ### Theorem for claim C7 -/

/-- C7: for every polygon whose outer ring has n ≥ 2 vertices with the first
vertex equal to the last, _calculate_polygon_centroid returns the
component-wise arithmetic mean of the first n−1 vertices (the closing
duplicate excluded); in particular for the ring
[(0,0), (0,2), (2,0), (0,0)] it returns (2/3, 2/3) and not the 4-point
average (1/2, 1/2); and for an outer ring with fewer than 2 elements it
returns the empty list rather than dividing by zero. -/
theorem centroid_excludes_closing_vertex :
    (∀ (ring : List (ℚ × ℚ)) (rest : List (List (ℚ × ℚ))),
      2 ≤ ring.length → ring.head? = ring.getLast? →
      calculatePolygonCentroid (ring :: rest) =
        some (vertexMean (ring.take (ring.length - 1)))) ∧
    calculatePolygonCentroid [[(0, 0), (0, 2), (2, 0), (0, 0)]] =
      some [2 / 3, 2 / 3] ∧
    calculatePolygonCentroid [[(0, 0), (0, 2), (2, 0), (0, 0)]] ≠
      some [1 / 2, 1 / 2] ∧
    (∀ (ring : List (ℚ × ℚ)) (rest : List (List (ℚ × ℚ))),
      ring.length < 2 → calculatePolygonCentroid (ring :: rest) = some []) := by
  refine ⟨?_, by norm_num [calculatePolygonCentroid], ?_, ?_⟩
  case refine_2 =>
    norm_num [calculatePolygonCentroid]
  · intro ring rest h2 _hclose
    have hnp : ¬ ((ring.length : Int) - 1 < 1) := by omega
    have hdrop : ring.dropLast = ring.take (ring.length - 1) := List.dropLast_eq_take ring
    have hlen : (ring.take (ring.length - 1)).length = ring.length - 1 := by
      rw [List.length_take]
      omega
    have hcast : (((ring.length : Int) - 1 : Int) : ℚ) =
        (((ring.take (ring.length - 1)).length : ℚ)) := by
      rw [hlen]
      have : 1 ≤ ring.length := by omega
      push_cast [Nat.cast_sub this]
      ring
    simp only [calculatePolygonCentroid, hnp, if_false, vertexMean, hdrop, hcast]
  · intro ring rest hlt
    have hnp : ((ring.length : Int) - 1 < 1) := by omega
    simp only [calculatePolygonCentroid, hnp, if_true]

theorem centroid_excludes_closing_vertex_witness :
    2 ≤ ([(0, 0), (0, 2), (2, 0), (0, 0)] : List (ℚ × ℚ)).length ∧
    calculatePolygonCentroid [[(0, 0), (0, 2), (2, 0), (0, 0)]] =
      some (vertexMean (([(0, 0), (0, 2), (2, 0), (0, 0)] : List (ℚ × ℚ)).take 3)) ∧
    calculatePolygonCentroid [[(0, 0)]] = some [] := by
  refine ⟨by decide, ?_, ?_⟩
  · have h := centroid_excludes_closing_vertex.1
      [(0, 0), (0, 2), (2, 0), (0, 0)] [] (by decide) (by decide)
    simpa using h
  · exact centroid_excludes_closing_vertex.2.2.2 [(0, 0)] [] (by decide)

/-! ### Additive file attachment of the final CRMClient revision

Mirrors _generic_attach_files_to_deal_field, attach_files_to_deal_visit_docs
and attach_files_to_deal_main_attachments
(src/app_bot/temp/exported_files/crm_client.py lines 671-810).  The CRM
server is modelled as an association list from deal id to the two
file-bearing fields of a deal (FileInfo ids only); get_deal_by_id_model is
the lookup, a field update is a whole-field overwrite. -/

/-- The two file-bearing deal fields used by the attach operations:
Category1000076CustomFieldViezdDokumentiIFotoSViezda (files_from_visit) and
attaches. -/
inductive DealFileField where
  | visitDocs
  | mainAttaches
  deriving DecidableEq

/-- File-id content of the two file-bearing fields of a CRM deal. -/
structure CrmFileDeal where
  filesFromVisit : List String
  attaches : List String
  deriving DecidableEq

def CrmFileDeal.fieldIds (d : CrmFileDeal) : DealFileField → List String
  | .visitDocs => d.filesFromVisit
  | .mainAttaches => d.attaches

def CrmFileDeal.setFieldIds (d : CrmFileDeal) : DealFileField → List String → CrmFileDeal
  | .visitDocs, ids => { d with filesFromVisit := ids }
  | .mainAttaches, ids => { d with attaches := ids }

/-- Server-side deal storage, keyed by deal id. -/
abbrev CrmStore := List (String × CrmFileDeal)

def storeSet (store : CrmStore) (dealId : String) (d : CrmFileDeal) : CrmStore :=
  store.map (fun kv => if kv.1 = dealId then (kv.1, d) else kv)

/-- _generic_attach_files_to_deal_field (exported crm_client.py lines
671-727): reject an empty deal id, build the File payload from the truthy
file ids, POST the whole-field overwrite.  The POST fails (None response)
when the deal does not exist. -/
def genericAttachFilesToDealField (store : CrmStore) (dealId : String)
    (fieldName : DealFileField) (fileIds : List String) : CrmStore × Bool :=
  if dealId = "" then (store, false)
  else
    let payload := fileIds.filter (fun fid => fid ≠ "")
    match store.lookup dealId with
    | none => (store, false)
    | some d => (storeSet store dealId (d.setFieldIds fieldName payload), true)

/-- Common body of attach_files_to_deal_visit_docs (exported crm_client.py
lines 729-769) and attach_files_to_deal_main_attachments (lines 771-810):
normalise the new ids to truthy strings (an empty remainder is a successful
no-op), re-fetch the deal, collect the existing ids of the target field,
union with the new ids removing duplicates, and write the combined list back
through the generic whole-field overwrite. -/
def attachFilesToDealField (store : CrmStore) (dealId : String)
    (fieldName : DealFileField) (fileIds : List String) : CrmStore × Bool :=
  let newFileIds := fileIds.filter (fun fid => fid ≠ "")
  if newFileIds = [] then (store, true)
  else
    match store.lookup dealId with
    | none => (store, false)
    | some deal =>
      let existingFileIds := deal.fieldIds fieldName
      let combinedIds := (existingFileIds ++ newFileIds).dedup
      genericAttachFilesToDealField store dealId fieldName combinedIds

/-- attach_files_to_deal_visit_docs: the union-based attach against the
Category1000076CustomFieldViezdDokumentiIFotoSViezda field. -/
def attachFilesToDealVisitDocs (store : CrmStore) (dealId : String)
    (fileIds : List String) : CrmStore × Bool :=
  attachFilesToDealField store dealId .visitDocs fileIds

/-- attach_files_to_deal_main_attachments: the union-based attach against
the attaches field. -/
def attachFilesToDealMainAttachments (store : CrmStore) (dealId : String)
    (fileIds : List String) : CrmStore × Bool :=
  attachFilesToDealField store dealId .mainAttaches fileIds

/-! ### Theorem for claim C1 -/

/-- Lookup after a whole-store field overwrite. -/
theorem lookup_storeSet_self (store : CrmStore) (dealId : String) (d0 d : CrmFileDeal)
    (h : store.lookup dealId = some d0) :
    (storeSet store dealId d).lookup dealId = some d := by
  induction store with
  | nil => simp at h
  | cons kv rest ih =>
    rcases kv with ⟨k, v⟩
    by_cases hk : k = dealId
    · subst hk
      simp [storeSet, List.lookup_cons]
    · have hne2 : dealId ≠ k := fun he => hk he.symm
      have hl : List.lookup dealId ((k, v) :: rest) = List.lookup dealId rest := by
        simp [List.lookup_cons, beq_false_of_ne hne2]
      rw [hl] at h
      have hmap := ih h
      simp only [storeSet, List.map_cons] at hmap ⊢
      rw [if_neg hk]
      simpa [List.lookup_cons, beq_false_of_ne hne2] using hmap

/-- Membership in the written-back field: the deduplicated union of the
existing ids and the truthy new ids, re-filtered for truthiness by the
generic overwrite. -/
theorem mem_attach_union (existing new : List String) (x : String) :
    (x ∈ (((existing ++ new.filter (fun fid => fid ≠ "")).dedup).filter
        (fun fid => fid ≠ ""))) ↔
      ((x ∈ existing ∨ x ∈ new) ∧ x ≠ "") := by
  simp only [List.mem_filter, List.mem_dedup, List.mem_append, decide_eq_true_eq]
  tauto

/-- C1: for every deal id, file-bearing deal field and list of new file ids
containing at least one truthy id, the attach-files operation
(attach_files_to_deal_visit_docs / attach_files_to_deal_main_attachments,
both instances of attachFilesToDealField) first re-fetches the deal,
succeeds on an existing deal, and overwrites the target field with exactly
the deduplicated union of the existing ids and the new ids, restricted to
truthy ids — so a (non-empty) file id already present in the field is never
lost: the resulting field contains x iff x is a non-empty id listed in the
field before the call or passed to it. -/
theorem attach_files_is_additive
    (store : CrmStore) (dealId : String) (fieldName : DealFileField)
    (fileIds : List String) (deal : CrmFileDeal)
    (hdeal : store.lookup dealId = some deal)
    (hne : fileIds.filter (fun fid => fid ≠ "") ≠ [])
    (hdid : dealId ≠ "") :
    (attachFilesToDealField store dealId fieldName fileIds).2 = true ∧
    ∃ d1, (attachFilesToDealField store dealId fieldName fileIds).1.lookup dealId
        = some d1 ∧
      ∀ x : String, x ∈ d1.fieldIds fieldName ↔
        ((x ∈ deal.fieldIds fieldName ∨ x ∈ fileIds) ∧ x ≠ "") := by
  have h1 : (fileIds.filter (fun fid => fid ≠ "") = []) = False := eq_false hne
  have h2 : (dealId = "") = False := eq_false hdid
  have hres : attachFilesToDealField store dealId fieldName fileIds =
      (storeSet store dealId (deal.setFieldIds fieldName
        (((deal.fieldIds fieldName ++ fileIds.filter (fun fid => fid ≠ "")).dedup).filter
          (fun fid => fid ≠ ""))), true) := by
    simp only [attachFilesToDealField, genericAttachFilesToDealField, hdeal, h1, h2,
      if_false]
  rw [hres]
  refine ⟨rfl, ?_⟩
  refine ⟨deal.setFieldIds fieldName
      (((deal.fieldIds fieldName ++ fileIds.filter (fun fid => fid ≠ "")).dedup).filter
        (fun fid => fid ≠ "")), ?_, ?_⟩
  · exact lookup_storeSet_self store dealId deal _ hdeal
  · intro x
    have hmem := mem_attach_union (deal.fieldIds fieldName) fileIds x
    rcases fieldName with _ | _ <;>
      simpa [CrmFileDeal.setFieldIds, CrmFileDeal.fieldIds] using hmem

theorem attach_files_is_additive_witness :
    (attachFilesToDealField [("7", ⟨["10"], []⟩)] "7" .visitDocs ["20"]).2 = true ∧
    ∃ d1, (attachFilesToDealField [("7", ⟨["10"], []⟩)] "7" .visitDocs
        ["20"]).1.lookup "7" = some d1 ∧
      ("10" ∈ d1.filesFromVisit ∧ "20" ∈ d1.filesFromVisit) := by
  have h := attach_files_is_additive [("7", ⟨["10"], []⟩)] "7" .visitDocs ["20"]
    ⟨["10"], []⟩ (by simp [List.lookup]) (by decide) (by decide)
  refine ⟨h.1, ?_⟩
  obtain ⟨d1, hd1, hiff⟩ := h.2
  refine ⟨d1, hd1, ?_, ?_⟩
  · exact (hiff "10").mpr ⟨Or.inl (by simp [CrmFileDeal.fieldIds]), by decide⟩
  · exact (hiff "20").mpr ⟨Or.inr (by simp), by decide⟩

/-! ### JSON trees and the recursive employee enrichment

Mirrors _recursively_build_cache and _recursively_enrich_employees
(src/app_bot/temp/exported_files/crm_client.py lines 190-241).  A response
tree is a JSON value; dicts are ordered association lists (CPython
insertion order), the cache dict is keyed by the JSON value stored under
"id" and maps to the field list of the cached dict. -/

inductive Json where
  | null : Json
  | b : Bool → Json
  | s : String → Json
  | num : ℚ → Json
  | arr : List Json → Json
  | obj : List (String × Json) → Json

/-- Structural induction for Json with hypotheses on list members. -/
theorem Json.inductionOn {P : Json → Prop}
    (hnull : P .null) (hb : ∀ v, P (.b v)) (hs : ∀ v, P (.s v))
    (hnum : ∀ v, P (.num v))
    (harr : ∀ items, (∀ x ∈ items, P x) → P (.arr items))
    (hobj : ∀ fs, (∀ kv ∈ fs, P kv.2) → P (.obj fs)) :
    ∀ j, P j
  | .null => hnull
  | .b v => hb v
  | .s v => hs v
  | .num v => hnum v
  | .arr items => harr items (fun x hx =>
      have : sizeOf x < 1 + sizeOf items :=
        Nat.lt_trans (List.sizeOf_lt_of_mem hx) (by omega)
      Json.inductionOn hnull hb hs hnum harr hobj x)
  | .obj fs => hobj fs (fun kv hkv =>
      have hkvlt : sizeOf kv < 1 + sizeOf fs :=
        Nat.lt_trans (List.sizeOf_lt_of_mem hkv) (by omega)
      have : sizeOf kv.2 < 1 + sizeOf fs := by
        rcases kv with ⟨k, v⟩
        simp only [Prod.mk.sizeOf_spec] at hkvlt
        simp only
        omega
      Json.inductionOn hnull hb hs hnum harr hobj kv.2)
termination_by j => sizeOf j

mutual

def Json.beq : Json → Json → Bool
  | .null, .null => true
  | .b x, .b y => x == y
  | .s x, .s y => x == y
  | .num x, .num y => x == y
  | .arr xs, .arr ys => Json.beqList xs ys
  | .obj xs, .obj ys => Json.beqFields xs ys
  | _, _ => false

def Json.beqList : List Json → List Json → Bool
  | [], [] => true
  | x :: xs, y :: ys => Json.beq x y && Json.beqList xs ys
  | _, _ => false

def Json.beqFields : List (String × Json) → List (String × Json) → Bool
  | [], [] => true
  | (k1, v1) :: xs, (k2, v2) :: ys =>
    k1 == k2 && Json.beq v1 v2 && Json.beqFields xs ys
  | _, _ => false

end

theorem Json.beqList_iff
    (xs : List Json)
    (ihel : ∀ x ∈ xs, ∀ b : Json, Json.beq x b = true ↔ x = b) :
    ∀ ys : List Json, Json.beqList xs ys = true ↔ xs = ys := by
  induction xs with
  | nil => intro ys; cases ys <;> simp [Json.beqList]
  | cons x xs ihx =>
    intro ys
    cases ys with
    | nil => simp [Json.beqList]
    | cons y ys =>
      simp only [Json.beqList, Bool.and_eq_true, List.cons.injEq]
      rw [ihel x (List.mem_cons_self x xs) y,
        ihx (fun z hz => ihel z (List.mem_cons_of_mem x hz)) ys]

theorem Json.beqFields_iff
    (xs : List (String × Json))
    (ihel : ∀ kv ∈ xs, ∀ b : Json, Json.beq kv.2 b = true ↔ kv.2 = b) :
    ∀ ys : List (String × Json), Json.beqFields xs ys = true ↔ xs = ys := by
  induction xs with
  | nil => intro ys; cases ys <;> simp [Json.beqFields]
  | cons kv xs ihx =>
    intro ys
    cases ys with
    | nil => rcases kv with ⟨k, v⟩; simp [Json.beqFields]
    | cons kv2 ys =>
      rcases kv with ⟨k, v⟩
      rcases kv2 with ⟨k2, v2⟩
      simp only [Json.beqFields, Bool.and_eq_true, List.cons.injEq, Prod.mk.injEq,
        beq_iff_eq]
      rw [ihel (k, v) (List.mem_cons_self (k, v) xs) v2,
        ihx (fun z hz => ihel z (List.mem_cons_of_mem (k, v) hz)) ys]

theorem Json.beq_iff : ∀ a b : Json, Json.beq a b = true ↔ a = b := by
  intro a
  induction a using Json.inductionOn with
  | hnull => intro b; cases b <;> simp [Json.beq]
  | hb v => intro b; cases b <;> simp [Json.beq]
  | hs v => intro b; cases b <;> simp [Json.beq]
  | hnum v => intro b; cases b <;> simp [Json.beq]
  | harr items ih =>
    intro b
    cases b <;> simp only [Json.beq, Bool.false_eq_true, false_iff] <;>
      try exact fun h => by cases h
    case arr ys =>
      show Json.beqList items ys = true ↔ Json.arr items = Json.arr ys
      rw [Json.beqList_iff items ih ys]
      constructor
      · intro h; rw [h]
      · intro h; cases h; rfl
  | hobj fs ih =>
    intro b
    cases b <;> simp only [Json.beq, Bool.false_eq_true, false_iff] <;>
      try exact fun h => by cases h
    case obj ys =>
      show Json.beqFields fs ys = true ↔ Json.obj fs = Json.obj ys
      rw [Json.beqFields_iff fs ih ys]
      constructor
      · intro h; rw [h]
      · intro h; cases h; rfl

instance : DecidableEq Json := fun a b =>
  decidable_of_iff (Json.beq a b = true) (Json.beq_iff a b)

/-- dict.get / the first binding of a key (CPython dicts have unique keys). -/
def fieldsGet : List (String × Json) → String → Option Json
  | [], _ => none
  | (k, v) :: rest, key => if k = key then some v else fieldsGet rest key

/-- Python: key in dict. -/
def hasField (fs : List (String × Json)) (key : String) : Bool :=
  (fieldsGet fs key).isSome

/-- A full Employee record: contentType "Employee" with both id and name
(_recursively_build_cache, exported crm_client.py lines 195-202). -/
def isFullEmployee (fs : List (String × Json)) : Bool :=
  decide (fieldsGet fs "contentType" = some (Json.s "Employee")) &&
    hasField fs "id" && hasField fs "name"

/-- An Employee stub: contentType "Employee" with an id but no name
(_recursively_enrich_employees, lines 220-227, minus the cache test). -/
def isStubEmployee (fs : List (String × Json)) : Bool :=
  decide (fieldsGet fs "contentType" = some (Json.s "Employee")) &&
    hasField fs "id" && !hasField fs "name"

/-- The same-response cache: id value to the fields of the cached dict. -/
abbrev EmpCache := List (Json × List (String × Json))

def cacheGet : EmpCache → Json → Option (List (String × Json))
  | [], _ => none
  | (k, v) :: rest, key => if k = key then some v else cacheGet rest key

mutual

/-- _recursively_build_cache: cache every full Employee dict under its id
(later writes win, modelled by cons-to-front), then keep walking the values
of dicts and the items of lists. -/
def buildCache (c : EmpCache) : Json → EmpCache
  | .obj fs =>
    let c1 :=
      if isFullEmployee fs then
        match fieldsGet fs "id" with
        | some i => (i, fs) :: c
        | none => c
      else c
    buildCacheFields c1 fs
  | .arr items => buildCacheList c items
  | _ => c

def buildCacheFields (c : EmpCache) : List (String × Json) → EmpCache
  | [] => c
  | kv :: rest => buildCacheFields (buildCache c kv.2) rest

def buildCacheList (c : EmpCache) : List Json → EmpCache
  | [] => c
  | x :: rest => buildCacheList (buildCache c x) rest

end

/-- The stub test of _recursively_enrich_employees including the cache
membership condition (lines 220-227). -/
def isStubInCache (c : EmpCache) (fs : List (String × Json)) : Bool :=
  isStubEmployee fs &&
    match fieldsGet fs "id" with
    | some i => (cacheGet c i).isSome
    | none => false

/-- dict.update(full): existing keys keep their position and take the new
value, keys only in the update are appended in order. -/
def updFields (d f : List (String × Json)) : List (String × Json) :=
  (d.map fun kv => (kv.1, (fieldsGet f kv.1).getD kv.2)) ++
    f.filter fun kv => !hasField d kv.1

mutual

/-- _recursively_enrich_employees: replace a cached stub by
dict.update(cached full record) and stop descending into it; otherwise walk
the values of dicts and the items of lists. -/
def enrich (c : EmpCache) : Json → Json
  | .obj fs =>
    if isStubInCache c fs then
      match fieldsGet fs "id" with
      | some i =>
        match cacheGet c i with
        | some cf => .obj (updFields fs cf)
        | none => .obj fs
      | none => .obj fs
    else .obj (enrichFields c fs)
  | .arr items => .arr (enrichList c items)
  | j => j

def enrichFields (c : EmpCache) : List (String × Json) → List (String × Json)
  | [] => []
  | kv :: rest => (kv.1, enrich c kv.2) :: enrichFields c rest

def enrichList (c : EmpCache) : List Json → List Json
  | [] => []
  | x :: rest => enrich c x :: enrichList c rest

end

/-- Subterm occurrence in a JSON tree (reflexive; through list items and
dict values). -/
inductive OccursIn : Json → Json → Prop where
  | refl (j : Json) : OccursIn j j
  | inArr {sub x : Json} (items : List Json) :
      x ∈ items → OccursIn sub x → OccursIn sub (.arr items)
  | inObj {sub : Json} {kv : String × Json} (fs : List (String × Json)) :
      kv ∈ fs → OccursIn sub kv.2 → OccursIn sub (.obj fs)

/-- A position in a JSON tree. -/
inductive JsonStep where
  | fld : String → JsonStep
  | idx : Nat → JsonStep
  deriving DecidableEq

/-- The node of a tree at a position, if any. -/
def getAt : Json → List JsonStep → Option Json
  | j, [] => some j
  | .obj fs, .fld k :: p =>
    match fieldsGet fs k with
    | some v => getAt v p
    | none => none
  | .arr l, .idx n :: p =>
    match l.get? n with
    | some v => getAt v p
    | none => none
  | _, _ => none

/-- Whether the enrichment pass replaces this node wholesale. -/
def replacedNode (c : EmpCache) : Json → Bool
  | .obj fs => isStubInCache c fs
  | _ => false

/-- No strictly higher node on the path is replaced wholesale by the
enrichment pass (the node at the path itself may be). -/
def pathIntact (c : EmpCache) : Json → List JsonStep → Bool
  | _, [] => true
  | j, st :: p =>
    !replacedNode c j &&
      (match j, st with
       | .obj fs, .fld k =>
         match fieldsGet fs k with
         | some v => pathIntact c v p
         | none => true
       | .arr l, .idx n =>
         match l.get? n with
         | some v => pathIntact c v p
         | none => true
       | _, _ => true)

/-! ### Theorems for claims C10 and C8 -/

mutual

/-- What the enrichment pass may do to a tree, stated independently of its
recursion: atoms are untouched; lists keep their length and element order,
elements related pointwise; a dict that is a cached Employee stub is
replaced by exactly dict.update(stub, cached record); every other dict keeps
its keys in order with each value related. -/
inductive EnrichSpec (c : EmpCache) : Json → Json → Prop where
  | null : EnrichSpec c .null .null
  | b (v : Bool) : EnrichSpec c (.b v) (.b v)
  | s (v : String) : EnrichSpec c (.s v) (.s v)
  | num (v : ℚ) : EnrichSpec c (.num v) (.num v)
  | arr {items items2 : List Json} (h : EnrichSpecList c items items2) :
      EnrichSpec c (.arr items) (.arr items2)
  | objStub {fs : List (String × Json)} {i : Json} {cf : List (String × Json)}
      (hstub : isStubEmployee fs = true) (hid : fieldsGet fs "id" = some i)
      (hcf : cacheGet c i = some cf) :
      EnrichSpec c (.obj fs) (.obj (updFields fs cf))
  | objFrame {fs fs2 : List (String × Json)}
      (hnot : isStubInCache c fs = false) (h : EnrichSpecFields c fs fs2) :
      EnrichSpec c (.obj fs) (.obj fs2)

/-- Pointwise lifting of EnrichSpec to lists: same length, same order. -/
inductive EnrichSpecList (c : EmpCache) : List Json → List Json → Prop where
  | nil : EnrichSpecList c [] []
  | cons {x y : Json} {xs ys : List Json} (hx : EnrichSpec c x y)
      (hxs : EnrichSpecList c xs ys) : EnrichSpecList c (x :: xs) (y :: ys)

/-- Pointwise lifting of EnrichSpec to dict fields: same keys, same order. -/
inductive EnrichSpecFields (c : EmpCache) :
    List (String × Json) → List (String × Json) → Prop where
  | nil : EnrichSpecFields c [] []
  | cons (k : String) {v w : Json} {fs gs : List (String × Json)}
      (hv : EnrichSpec c v w) (hfs : EnrichSpecFields c fs gs) :
      EnrichSpecFields c ((k, v) :: fs) ((k, w) :: gs)

end

/-- Lists related by EnrichSpecList have the same length. -/
theorem enrichSpecList_length {c : EmpCache} {xs ys : List Json}
    (h : EnrichSpecList c xs ys) : xs.length = ys.length := by
  induction xs generalizing ys with
  | nil => cases h; rfl
  | cons x rest ih =>
    cases h with
    | cons hx hxs => simpa using ih hxs

/-- Fields related by EnrichSpecFields have the same keys in the same
order. -/
theorem enrichSpecFields_keys {c : EmpCache} {fs gs : List (String × Json)}
    (h : EnrichSpecFields c fs gs) : fs.map Prod.fst = gs.map Prod.fst := by
  induction fs generalizing gs with
  | nil => cases h; rfl
  | cons kv rest ih =>
    cases h with
    | cons k hv hfs => simpa using ih hfs

/-- C10: the enrichment second pass is structure-preserving: for every cache
and input tree, the output is related to the input by EnrichSpec — every
list keeps its length and element order, the only dict nodes modified
wholesale are cached Employee stubs (replaced by dict.update with the cached
record), and every other node keeps its own shape (a dict even its exact key
sequence) with only its children rewritten by the same relation. -/
theorem enrich_structure_preserving (c : EmpCache) (j : Json) :
    EnrichSpec c j (enrich c j) := by
  induction j using Json.inductionOn with
  | hnull => exact .null
  | hb v => exact .b v
  | hs v => exact .s v
  | hnum v => exact .num v
  | harr items ih =>
    have harr2 : ∀ xs : List Json, (∀ x ∈ xs, EnrichSpec c x (enrich c x)) →
        EnrichSpecList c xs (enrichList c xs) := by
      intro xs
      induction xs with
      | nil => intro _; simp only [enrichList]; exact .nil
      | cons x rest ihr =>
        intro hmem
        simp only [enrichList]
        exact .cons (hmem x (List.mem_cons_self x rest))
          (ihr fun z hz => hmem z (List.mem_cons_of_mem x hz))
    simp only [enrich]
    exact .arr (harr2 items ih)
  | hobj fs ih =>
    by_cases hstub : isStubInCache c fs = true
    · have hparts := hstub
      unfold isStubInCache at hparts
      rw [Bool.and_eq_true] at hparts
      rcases hid : fieldsGet fs "id" with _ | i
      · rw [hid] at hparts
        simp at hparts
      · rw [hid] at hparts
        have hsome : (cacheGet c i).isSome = true := by simpa using hparts.2
        rcases hcf : cacheGet c i with _ | cf
        · rw [hcf] at hsome
          simp at hsome
        · have : enrich c (.obj fs) = .obj (updFields fs cf) := by
            simp only [enrich, hstub, if_true, hid, hcf]
          rw [this]
          exact .objStub hparts.1 hid hcf
    · have hobj2 : ∀ xs : List (String × Json),
          (∀ kv ∈ xs, EnrichSpec c kv.2 (enrich c kv.2)) →
          EnrichSpecFields c xs (enrichFields c xs) := by
        intro xs
        induction xs with
        | nil => intro _; simp only [enrichFields]; exact .nil
        | cons kv rest ihr =>
          intro hmem
          rcases kv with ⟨k, v⟩
          simp only [enrichFields]
          exact .cons k (hmem (k, v) (List.mem_cons_self (k, v) rest))
            (ihr fun z hz => hmem z (List.mem_cons_of_mem (k, v) hz))
      have hnot : isStubInCache c fs = false := by
        rcases h : isStubInCache c fs with _ | _
        · rfl
        · exact absurd h hstub
      have : enrich c (.obj fs) = .obj (enrichFields c fs) := by
        simp only [enrich, hnot, Bool.false_eq_true, if_false]
      rw [this]
      exact .objFrame hnot (hobj2 fs ih)

/-- A lookup that succeeds still succeeds after entries are prepended. -/
theorem cacheGet_append_isSome (pre c0 : EmpCache) (i : Json)
    (h : (cacheGet c0 i).isSome) : (cacheGet (pre ++ c0) i).isSome := by
  induction pre with
  | nil => simpa using h
  | cons kv rest ih =>
    rcases kv with ⟨k, v⟩
    by_cases hk : k = i
    · simp [cacheGet, hk]
    · simpa [cacheGet, hk] using ih

/-- _recursively_build_cache only adds entries. -/
theorem buildCache_extends : ∀ j : Json, ∀ c0 : EmpCache,
    ∃ pre, buildCache c0 j = pre ++ c0 := by
  intro j
  induction j using Json.inductionOn with
  | hnull => intro c0; exact ⟨[], rfl⟩
  | hb v => intro c0; exact ⟨[], rfl⟩
  | hs v => intro c0; exact ⟨[], rfl⟩
  | hnum v => intro c0; exact ⟨[], rfl⟩
  | harr items ih =>
    have key : ∀ xs : List Json,
        (∀ x ∈ xs, ∀ c0, ∃ pre, buildCache c0 x = pre ++ c0) →
        ∀ c0, ∃ pre, buildCacheList c0 xs = pre ++ c0 := by
      intro xs
      induction xs with
      | nil => intro _ c0; exact ⟨[], rfl⟩
      | cons x rest ihr =>
        intro hmem c0
        obtain ⟨pre1, h1⟩ := hmem x (List.mem_cons_self x rest) c0
        obtain ⟨pre2, h2⟩ :=
          ihr (fun z hz => hmem z (List.mem_cons_of_mem x hz)) (buildCache c0 x)
        refine ⟨pre2 ++ pre1, ?_⟩
        simp only [buildCacheList]
        rw [h2, h1, List.append_assoc]
    intro c0
    simpa only [buildCache] using key items ih c0
  | hobj fs ih =>
    have key : ∀ xs : List (String × Json),
        (∀ kv ∈ xs, ∀ c0, ∃ pre, buildCache c0 kv.2 = pre ++ c0) →
        ∀ c0, ∃ pre, buildCacheFields c0 xs = pre ++ c0 := by
      intro xs
      induction xs with
      | nil => intro _ c0; exact ⟨[], rfl⟩
      | cons kv rest ihr =>
        intro hmem c0
        obtain ⟨pre1, h1⟩ := hmem kv (List.mem_cons_self kv rest) c0
        obtain ⟨pre2, h2⟩ :=
          ihr (fun z hz => hmem z (List.mem_cons_of_mem kv hz)) (buildCache c0 kv.2)
        refine ⟨pre2 ++ pre1, ?_⟩
        simp only [buildCacheFields]
        rw [h2, h1, List.append_assoc]
    intro c0
    simp only [buildCache]
    by_cases hfull : isFullEmployee fs = true
    · rcases hid : fieldsGet fs "id" with _ | i
      · simpa only [hfull, if_true, hid] using key fs ih c0
      · obtain ⟨pre, hpre⟩ := key fs ih ((i, fs) :: c0)
        refine ⟨pre ++ [(i, fs)], ?_⟩
        simp only [hfull, if_true, hid]
        rw [hpre, List.append_assoc]
        rfl
    · have hfull2 : isFullEmployee fs = false := by
        rcases h : isFullEmployee fs with _ | _
        · rfl
        · exact absurd h hfull
      simpa only [hfull2, Bool.false_eq_true, if_false] using key fs ih c0

/-- Fold version of buildCache_extends for dict fields. -/
theorem buildCacheFields_extends (fs : List (String × Json)) (c0 : EmpCache) :
    ∃ pre, buildCacheFields c0 fs = pre ++ c0 := by
  induction fs generalizing c0 with
  | nil => exact ⟨[], rfl⟩
  | cons kv rest ih =>
    obtain ⟨pre1, h1⟩ := buildCache_extends kv.2 c0
    obtain ⟨pre2, h2⟩ := ih (buildCache c0 kv.2)
    refine ⟨pre2 ++ pre1, ?_⟩
    simp only [buildCacheFields]
    rw [h2, h1, List.append_assoc]

/-- Fold version of buildCache_extends for list items. -/
theorem buildCacheList_extends (xs : List Json) (c0 : EmpCache) :
    ∃ pre, buildCacheList c0 xs = pre ++ c0 := by
  induction xs generalizing c0 with
  | nil => exact ⟨[], rfl⟩
  | cons x rest ih =>
    obtain ⟨pre1, h1⟩ := buildCache_extends x c0
    obtain ⟨pre2, h2⟩ := ih (buildCache c0 x)
    refine ⟨pre2 ++ pre1, ?_⟩
    simp only [buildCacheList]
    rw [h2, h1, List.append_assoc]

theorem buildCache_mono (j : Json) (c0 : EmpCache) (i : Json)
    (h : (cacheGet c0 i).isSome) : (cacheGet (buildCache c0 j) i).isSome := by
  obtain ⟨pre, hpre⟩ := buildCache_extends j c0
  rw [hpre]
  exact cacheGet_append_isSome pre c0 i h

theorem buildCacheFields_mono (fs : List (String × Json)) (c0 : EmpCache) (i : Json)
    (h : (cacheGet c0 i).isSome) : (cacheGet (buildCacheFields c0 fs) i).isSome := by
  obtain ⟨pre, hpre⟩ := buildCacheFields_extends fs c0
  rw [hpre]
  exact cacheGet_append_isSome pre c0 i h

theorem buildCacheList_mono (xs : List Json) (c0 : EmpCache) (i : Json)
    (h : (cacheGet c0 i).isSome) : (cacheGet (buildCacheList c0 xs) i).isSome := by
  obtain ⟨pre, hpre⟩ := buildCacheList_extends xs c0
  rw [hpre]
  exact cacheGet_append_isSome pre c0 i h

/-- Cache completeness: every full Employee record occurring in the walked
tree ends up cached under its id. -/
theorem buildCache_complete (sub j : Json) (hocc : OccursIn sub j)
    (cf : List (String × Json)) (i : Json)
    (hfull : isFullEmployee cf = true) (hid : fieldsGet cf "id" = some i) :
    sub = .obj cf → ∀ c0 : EmpCache, (cacheGet (buildCache c0 j) i).isSome := by
  induction hocc with
  | refl =>
    intro hsub c0
    subst hsub
    simp only [buildCache, hfull, if_true, hid]
    apply buildCacheFields_mono
    simp [cacheGet]
  | inArr items hx hsub2 ih =>
    rename_i x
    intro hsub c0
    have ihx : ∀ c : EmpCache, (cacheGet (buildCache c x) i).isSome := ih hsub
    have key : ∀ xs : List Json, x ∈ xs → ∀ c1 : EmpCache,
        (cacheGet (buildCacheList c1 xs) i).isSome := by
      intro xs
      induction xs with
      | nil => intro hmem; simp at hmem
      | cons y rest ihr =>
        intro hmem c1
        rcases List.mem_cons.mp hmem with hxy | hxrest
        · subst hxy
          simp only [buildCacheList]
          exact buildCacheList_mono rest (buildCache c1 x) i (ihx c1)
        · simp only [buildCacheList]
          exact ihr hxrest (buildCache c1 y)
    simpa only [buildCache] using key items hx c0
  | inObj fs hkv hsub2 ih =>
    rename_i kv
    intro hsub c0
    have ihkv : ∀ c : EmpCache, (cacheGet (buildCache c kv.2) i).isSome := ih hsub
    have key : ∀ xs : List (String × Json), kv ∈ xs → ∀ c1 : EmpCache,
        (cacheGet (buildCacheFields c1 xs) i).isSome := by
      intro xs
      induction xs with
      | nil => intro hmem; simp at hmem
      | cons kv2 rest ihr =>
        intro hmem c1
        rcases List.mem_cons.mp hmem with hxy | hxrest
        · subst hxy
          simp only [buildCacheFields]
          exact buildCacheFields_mono rest (buildCache c1 kv.2) i (ihkv c1)
        · simp only [buildCacheFields]
          exact ihr hxrest (buildCache c1 kv2.2)
    simp only [buildCache]
    by_cases hfull2 : isFullEmployee fs = true
    · rcases hid2 : fieldsGet fs "id" with _ | i2
      · simpa only [hfull2, if_true, hid2] using key fs hkv c0
      · simpa only [hfull2, if_true, hid2] using key fs hkv ((i2, fs) :: c0)
    · have hf : isFullEmployee fs = false := by
        rcases h : isFullEmployee fs with _ | _
        · rfl
        · exact absurd h hfull2
      simpa only [hf, Bool.false_eq_true, if_false] using key fs hkv c0

/-- Cache soundness: every cache entry not already present initially is a
full Employee record occurring in the walked tree, keyed by its id. -/
theorem buildCache_sound : ∀ j : Json, ∀ c0 : EmpCache, ∀ i : Json,
    ∀ cf : List (String × Json), cacheGet (buildCache c0 j) i = some cf →
    cacheGet c0 i = some cf ∨
      (OccursIn (.obj cf) j ∧ isFullEmployee cf = true ∧
        fieldsGet cf "id" = some i) := by
  intro j
  induction j using Json.inductionOn with
  | hnull => intro c0 i cf h; exact Or.inl h
  | hb v => intro c0 i cf h; exact Or.inl h
  | hs v => intro c0 i cf h; exact Or.inl h
  | hnum v => intro c0 i cf h; exact Or.inl h
  | harr items ih =>
    have key : ∀ xs : List Json,
        (∀ x ∈ xs, ∀ c0 i cf, cacheGet (buildCache c0 x) i = some cf →
          cacheGet c0 i = some cf ∨
            (OccursIn (.obj cf) x ∧ isFullEmployee cf = true ∧
              fieldsGet cf "id" = some i)) →
        ∀ c0 i cf, cacheGet (buildCacheList c0 xs) i = some cf →
          cacheGet c0 i = some cf ∨
            ∃ x ∈ xs, OccursIn (.obj cf) x ∧ isFullEmployee cf = true ∧
              fieldsGet cf "id" = some i := by
      intro xs
      induction xs with
      | nil => intro _ c0 i cf h; exact Or.inl h
      | cons y rest ihr =>
        intro hmem c0 i cf h
        simp only [buildCacheList] at h
        rcases ihr (fun z hz => hmem z (List.mem_cons_of_mem y hz))
            (buildCache c0 y) i cf h with h1 | ⟨x, hx, hocc⟩
        · rcases hmem y (List.mem_cons_self y rest) c0 i cf h1 with h2 | h2
          · exact Or.inl h2
          · exact Or.inr ⟨y, List.mem_cons_self y rest, h2⟩
        · exact Or.inr ⟨x, List.mem_cons_of_mem y hx, hocc⟩
    intro c0 i cf h
    simp only [buildCache] at h
    rcases key items ih c0 i cf h with h1 | ⟨x, hx, hocc, hfull, hid⟩
    · exact Or.inl h1
    · exact Or.inr ⟨OccursIn.inArr items hx hocc, hfull, hid⟩
  | hobj fs ih =>
    have key : ∀ xs : List (String × Json),
        (∀ kv ∈ xs, ∀ c0 i cf, cacheGet (buildCache c0 kv.2) i = some cf →
          cacheGet c0 i = some cf ∨
            (OccursIn (.obj cf) kv.2 ∧ isFullEmployee cf = true ∧
              fieldsGet cf "id" = some i)) →
        ∀ c0 i cf, cacheGet (buildCacheFields c0 xs) i = some cf →
          cacheGet c0 i = some cf ∨
            ∃ kv ∈ xs, OccursIn (.obj cf) kv.2 ∧ isFullEmployee cf = true ∧
              fieldsGet cf "id" = some i := by
      intro xs
      induction xs with
      | nil => intro _ c0 i cf h; exact Or.inl h
      | cons kv rest ihr =>
        intro hmem c0 i cf h
        simp only [buildCacheFields] at h
        rcases ihr (fun z hz => hmem z (List.mem_cons_of_mem kv hz))
            (buildCache c0 kv.2) i cf h with h1 | ⟨kv2, hkv2, hocc⟩
        · rcases hmem kv (List.mem_cons_self kv rest) c0 i cf h1 with h2 | h2
          · exact Or.inl h2
          · exact Or.inr ⟨kv, List.mem_cons_self kv rest, h2⟩
        · exact Or.inr ⟨kv2, List.mem_cons_of_mem kv hkv2, hocc⟩
    intro c0 i cf h
    simp only [buildCache] at h
    by_cases hfull : isFullEmployee fs = true
    · rcases hid : fieldsGet fs "id" with _ | i0
      · simp only [hfull, hid, eq_self_iff_true, if_true] at h
        rcases key fs ih c0 i cf h with h1 | ⟨kv, hkv, hocc, hf, hi⟩
        · exact Or.inl h1
        · exact Or.inr ⟨OccursIn.inObj fs hkv hocc, hf, hi⟩
      · simp only [hfull, hid, eq_self_iff_true, if_true] at h
        rcases key fs ih ((i0, fs) :: c0) i cf h with h1 | ⟨kv, hkv, hocc, hf, hi⟩
        · by_cases hi0 : i0 = i
          · subst hi0
            simp only [cacheGet, eq_self_iff_true, if_true, Option.some.injEq] at h1
            subst h1
            exact Or.inr ⟨OccursIn.refl _, hfull, hid⟩
          · simp only [cacheGet, if_neg hi0] at h1
            exact Or.inl h1
        · exact Or.inr ⟨OccursIn.inObj fs hkv hocc, hf, hi⟩
    · have hf2 : isFullEmployee fs = false := by
        rcases hone : isFullEmployee fs with _ | _
        · rfl
        · exact absurd hone hfull
      rw [hf2] at h
      simp only [Bool.false_eq_true, if_false] at h
      rcases key fs ih c0 i cf h with h1 | ⟨kv, hkv, hocc, hf, hi⟩
      · exact Or.inl h1
      · exact Or.inr ⟨OccursIn.inObj fs hkv hocc, hf, hi⟩

/-- The value pass rewrites each dict value in place. -/
theorem fieldsGet_enrichFields (c : EmpCache) :
    ∀ fs : List (String × Json), ∀ k : String,
    fieldsGet (enrichFields c fs) k = (fieldsGet fs k).map (enrich c) := by
  intro fs
  induction fs with
  | nil => intro k; rfl
  | cons kv rest ih =>
    intro k
    rcases kv with ⟨k1, v⟩
    simp only [enrichFields, fieldsGet]
    by_cases hk : k1 = k
    · simp [hk]
    · simp [hk, ih k]

/-- The item pass rewrites each list item in place. -/
theorem get?_enrichList (c : EmpCache) :
    ∀ l : List Json, ∀ n : Nat,
    (enrichList c l).get? n = (l.get? n).map (enrich c) := by
  intro l
  induction l with
  | nil => intro n; cases n <;> rfl
  | cons x rest ih =>
    intro n
    cases n with
    | zero => rfl
    | succ m => simpa only [enrichList, List.get?] using ih m

/-- Unfolding of the enrichment pass at a cached stub. -/
theorem enrich_at_cached_stub (c : EmpCache) (fs : List (String × Json))
    (i : Json) (cf : List (String × Json))
    (hstub : isStubEmployee fs = true) (hid : fieldsGet fs "id" = some i)
    (hcf : cacheGet c i = some cf) :
    enrich c (.obj fs) = .obj (updFields fs cf) := by
  have hsc : isStubInCache c fs = true := by
    simp [isStubInCache, hstub, hid, hcf]
  simp only [enrich, hsc, if_true, hid, hcf]

/-- The node the enrichment pass yields at a position whose strict ancestors
are not replaced wholesale: the enrichment of the original node. -/
theorem getAt_enrich (c : EmpCache) :
    ∀ p : List JsonStep, ∀ j tgt : Json,
    getAt j p = some tgt → pathIntact c j p = true →
    getAt (enrich c j) p = some (enrich c tgt) := by
  intro p
  induction p with
  | nil =>
    intro j tgt hget _
    simp only [getAt, Option.some.injEq] at hget
    subst hget
    cases enrich c j <;> rfl
  | cons st p ih =>
    intro j tgt hget hintact
    cases j with
    | null => simp [getAt] at hget
    | b v => simp [getAt] at hget
    | s v => simp [getAt] at hget
    | num v => simp [getAt] at hget
    | arr l =>
      cases st with
      | fld k => simp [getAt] at hget
      | idx n =>
        simp only [getAt] at hget
        rcases hv : l.get? n with _ | v
        · rw [hv] at hget; simp at hget
        · rw [hv] at hget
          simp only [pathIntact, replacedNode, Bool.not_false, Bool.true_and, hv]
            at hintact
          have henr : enrich c (.arr l) = .arr (enrichList c l) := by
            simp only [enrich]
          rw [henr]
          simp only [getAt, get?_enrichList, hv, Option.map_some]
          exact ih v tgt hget hintact
    | obj fs =>
      cases st with
      | idx n => simp [getAt] at hget
      | fld k =>
        simp only [getAt] at hget
        rcases hv : fieldsGet fs k with _ | v
        · rw [hv] at hget; simp at hget
        · rw [hv] at hget
          simp only [pathIntact, replacedNode, Bool.and_eq_true, Bool.not_eq_eq_eq_not,
            Bool.not_true, hv] at hintact
          have hnot : isStubInCache c fs = false := by
            simpa using hintact.1
          have henr : enrich c (.obj fs) = .obj (enrichFields c fs) := by
            simp only [enrich, hnot, Bool.false_eq_true, if_false]
          rw [henr]
          simp only [getAt, fieldsGet_enrichFields, hv, Option.map_some]
          exact ih v tgt hget hintact.2

/-- The enrichment pass is the identity on a tree containing no cached
stub. -/
theorem enrich_id_of_no_cached_stub (c : EmpCache) :
    ∀ t : Json, (∀ sub : Json, OccursIn sub t → replacedNode c sub = false) →
    enrich c t = t := by
  intro t
  induction t using Json.inductionOn with
  | hnull => intro _; rfl
  | hb v => intro _; rfl
  | hs v => intro _; rfl
  | hnum v => intro _; rfl
  | harr items ih =>
    intro hno
    have hlist : ∀ xs : List Json,
        (∀ x ∈ xs, (∀ sub, OccursIn sub x → replacedNode c sub = false) →
          enrich c x = x) →
        (∀ x ∈ xs, ∀ sub, OccursIn sub x → replacedNode c sub = false) →
        enrichList c xs = xs := by
      intro xs
      induction xs with
      | nil => intro _ _; rfl
      | cons x rest ihr =>
        intro hel hsub
        simp only [enrichList]
        rw [hel x (List.mem_cons_self x rest) (hsub x (List.mem_cons_self x rest)),
          ihr (fun z hz => hel z (List.mem_cons_of_mem x hz))
            (fun z hz => hsub z (List.mem_cons_of_mem x hz))]
    simp only [enrich]
    rw [hlist items ih (fun x hx sub hocc =>
      hno sub (OccursIn.inArr items hx hocc))]
  | hobj fs ih =>
    intro hno
    have hfields : ∀ xs : List (String × Json),
        (∀ kv ∈ xs, (∀ sub, OccursIn sub kv.2 → replacedNode c sub = false) →
          enrich c kv.2 = kv.2) →
        (∀ kv ∈ xs, ∀ sub, OccursIn sub kv.2 → replacedNode c sub = false) →
        enrichFields c xs = xs := by
      intro xs
      induction xs with
      | nil => intro _ _; rfl
      | cons kv rest ihr =>
        intro hel hsub
        rcases hkv : kv with ⟨k, v⟩
        simp only [enrichFields]
        rw [show enrich c (k, v).2 = (k, v).2 from
            hel (k, v) (hkv ▸ List.mem_cons_self kv rest)
              (hsub (k, v) (hkv ▸ List.mem_cons_self kv rest)),
          ihr (fun z hz => hel z (hkv ▸ List.mem_cons_of_mem kv hz))
            (fun z hz => hsub z (hkv ▸ List.mem_cons_of_mem kv hz))]
    have hnot : isStubInCache c fs = false := by
      have := hno (.obj fs) (OccursIn.refl _)
      simpa [replacedNode] using this
    simp only [enrich, hnot, Bool.false_eq_true, if_false]
    rw [hfields fs ih (fun kv hkv sub hocc =>
      hno sub (OccursIn.inObj fs hkv hocc))]

/-- Key lookup through the rewritten-in-place part of dict.update. -/
theorem fieldsGet_map_upd (f : List (String × Json)) :
    ∀ d : List (String × Json), ∀ k : String,
    fieldsGet (d.map fun kv => (kv.1, (fieldsGet f kv.1).getD kv.2)) k =
      (fieldsGet d k).map fun v => (fieldsGet f k).getD v := by
  intro d
  induction d with
  | nil => intro k; rfl
  | cons kv rest ih =>
    intro k
    rcases kv with ⟨k1, v⟩
    simp only [List.map_cons, fieldsGet]
    by_cases hk : k1 = k
    · subst hk
      simp
    · simp [hk, ih k]

/-- Key lookup across an append of field lists. -/
theorem fieldsGet_append (k : String) :
    ∀ xs ys : List (String × Json),
    fieldsGet (xs ++ ys) k =
      match fieldsGet xs k with
      | some v => some v
      | none => fieldsGet ys k := by
  intro xs ys
  induction xs with
  | nil => rfl
  | cons kv rest ih =>
    rcases kv with ⟨k1, v⟩
    simp only [List.cons_append, fieldsGet]
    by_cases hk : k1 = k
    · simp [hk]
    · simp [hk, ih]

/-- Looking up a key absent from d in the appended part of dict.update. -/
theorem fieldsGet_filter_of_not_has (d : List (String × Json)) (k : String)
    (hd : hasField d k = false) :
    ∀ f : List (String × Json),
    fieldsGet (f.filter fun kv => !hasField d kv.1) k = fieldsGet f k := by
  intro f
  induction f with
  | nil => rfl
  | cons kv rest ih =>
    rcases kv with ⟨k1, v⟩
    by_cases hk : k1 = k
    · subst hk
      have hdt : (!hasField d k1) = true := by simp [hd]
      simp [List.filter_cons, hdt, fieldsGet]
    · rcases hf : (!hasField d k1) with _ | _
      · simp only [List.filter_cons, hf, Bool.false_eq_true, if_false, ih, fieldsGet,
          hk, if_false]
      · simp only [List.filter_cons, hf, if_true, fieldsGet, hk, if_false, ih]

/-- dict.update(d, f) reports the value f holds for every key f has. -/
theorem fieldsGet_updFields_of_isSome (d f : List (String × Json)) (k : String)
    (hf : (fieldsGet f k).isSome) :
    fieldsGet (updFields d f) k = fieldsGet f k := by
  unfold updFields
  rw [fieldsGet_append]
  rw [fieldsGet_map_upd]
  rcases hd : fieldsGet d k with _ | v
  · simp only [Option.map_none']
    exact fieldsGet_filter_of_not_has d k (by simp [hasField, hd]) f
  · simp only [Option.map_some']
    rcases hfk : fieldsGet f k with _ | w
    · rw [hfk] at hf
      simp at hf
    · simp

/-- C8 counterexample: the original claim — after the two passes, every stub
whose id occurs somewhere in the tree as a full record reports that record
name — fails on the code.  _recursively_enrich_employees does
dict.update(cached record) and returns without descending into the replaced
node, and dict.update keeps keys the cached record lacks; so in a tree with
full records for ids "1" and "5" and an id-"1" stub that carries an id-"5"
stub under the extra key "assistant", the outer stub is replaced while the
inner stub is copied from the update unenriched: after enrichment the node
at position [2]."assistant" is still the bare id-"5" stub with no name,
although the full id-"5" record (name "X") occurs in the tree. -/
theorem enrichment_nested_stub_counterexample :
    OccursIn
      (Json.obj [("contentType", Json.s "Employee"), ("id", Json.s "5"),
        ("name", Json.s "X")])
      (Json.arr
        [Json.obj [("contentType", Json.s "Employee"), ("id", Json.s "1"),
          ("name", Json.s "A")],
         Json.obj [("contentType", Json.s "Employee"), ("id", Json.s "5"),
          ("name", Json.s "X")],
         Json.obj [("contentType", Json.s "Employee"), ("id", Json.s "1"),
          ("assistant",
            Json.obj [("contentType", Json.s "Employee"), ("id", Json.s "5")])]]) ∧
    isFullEmployee
      [("contentType", Json.s "Employee"), ("id", Json.s "5"),
        ("name", Json.s "X")] = true ∧
    fieldsGet
      [("contentType", Json.s "Employee"), ("id", Json.s "5"),
        ("name", Json.s "X")] "id" = some (Json.s "5") ∧
    fieldsGet
      [("contentType", Json.s "Employee"), ("id", Json.s "5"),
        ("name", Json.s "X")] "name" = some (Json.s "X") ∧
    getAt
      (Json.arr
        [Json.obj [("contentType", Json.s "Employee"), ("id", Json.s "1"),
          ("name", Json.s "A")],
         Json.obj [("contentType", Json.s "Employee"), ("id", Json.s "5"),
          ("name", Json.s "X")],
         Json.obj [("contentType", Json.s "Employee"), ("id", Json.s "1"),
          ("assistant",
            Json.obj [("contentType", Json.s "Employee"), ("id", Json.s "5")])]])
      [JsonStep.idx 2, JsonStep.fld "assistant"] =
      some (Json.obj [("contentType", Json.s "Employee"), ("id", Json.s "5")]) ∧
    isStubEmployee [("contentType", Json.s "Employee"), ("id", Json.s "5")] = true ∧
    fieldsGet [("contentType", Json.s "Employee"), ("id", Json.s "5")] "id" =
      some (Json.s "5") ∧
    getAt
      (enrich
        (buildCache []
          (Json.arr
            [Json.obj [("contentType", Json.s "Employee"), ("id", Json.s "1"),
              ("name", Json.s "A")],
             Json.obj [("contentType", Json.s "Employee"), ("id", Json.s "5"),
              ("name", Json.s "X")],
             Json.obj [("contentType", Json.s "Employee"), ("id", Json.s "1"),
              ("assistant",
                Json.obj [("contentType", Json.s "Employee"),
                  ("id", Json.s "5")])]]))
        (Json.arr
          [Json.obj [("contentType", Json.s "Employee"), ("id", Json.s "1"),
            ("name", Json.s "A")],
           Json.obj [("contentType", Json.s "Employee"), ("id", Json.s "5"),
            ("name", Json.s "X")],
           Json.obj [("contentType", Json.s "Employee"), ("id", Json.s "1"),
            ("assistant",
              Json.obj [("contentType", Json.s "Employee"), ("id", Json.s "5")])]]))
      [JsonStep.idx 2, JsonStep.fld "assistant"] =
      some (Json.obj [("contentType", Json.s "Employee"), ("id", Json.s "5")]) ∧
    fieldsGet [("contentType", Json.s "Employee"), ("id", Json.s "5")] "name" =
      none := by
  refine ⟨?_, by decide, by decide, by decide, by decide, by decide, by decide,
    by decide, by decide⟩
  exact OccursIn.inArr _
    (List.mem_cons_of_mem _ (List.mem_cons_self _ _)) (OccursIn.refl _)

/-- C8 (amended): after the two enrichment passes with the same-response
cache built over the whole tree, (1) every full Employee record occurring
anywhere in the tree is cached under its id; (2) every Employee stub at a
position no strict ancestor of which is itself a replaced (cached) stub, and
whose id is cached, is replaced by dict.update(stub, cached record) and thus
reports exactly the name of a full Employee record occurring in the tree
with that id; and (3) a stub whose id is not cached (by (1): whose id occurs
nowhere in the tree as a full record), containing no cached stub inside
itself, is left unchanged.  The position restrictions are forced by the
counterexample above: the code never descends into a replaced stub, so
material nested inside one is copied from the cache source unenriched. -/
theorem enrichment_fills_stubs (j : Json) :
    (∀ (cf : List (String × Json)) (i : Json), OccursIn (.obj cf) j →
      isFullEmployee cf = true → fieldsGet cf "id" = some i →
      (cacheGet (buildCache [] j) i).isSome) ∧
    (∀ (p : List JsonStep) (fs : List (String × Json)) (i : Json)
        (cf : List (String × Json)),
      getAt j p = some (.obj fs) → isStubEmployee fs = true →
      fieldsGet fs "id" = some i →
      pathIntact (buildCache [] j) j p = true →
      cacheGet (buildCache [] j) i = some cf →
      getAt (enrich (buildCache [] j) j) p = some (.obj (updFields fs cf)) ∧
      fieldsGet (updFields fs cf) "name" = fieldsGet cf "name" ∧
      (fieldsGet cf "name").isSome ∧
      OccursIn (.obj cf) j ∧ isFullEmployee cf = true ∧
      fieldsGet cf "id" = some i) ∧
    (∀ (p : List JsonStep) (fs : List (String × Json)) (i : Json),
      getAt j p = some (.obj fs) → isStubEmployee fs = true →
      fieldsGet fs "id" = some i →
      pathIntact (buildCache [] j) j p = true →
      cacheGet (buildCache [] j) i = none →
      (∀ sub : Json, OccursIn sub (.obj fs) →
        replacedNode (buildCache [] j) sub = false) →
      getAt (enrich (buildCache [] j) j) p = some (.obj fs)) := by
  refine ⟨?_, ?_, ?_⟩
  · intro cf i hocc hfull hid
    exact buildCache_complete (.obj cf) j hocc cf i hfull hid rfl []
  · intro p fs i cf hget hstub hid hintact hcf
    have hsound := buildCache_sound j [] i cf hcf
    have hsound2 : OccursIn (.obj cf) j ∧ isFullEmployee cf = true ∧
        fieldsGet cf "id" = some i := by
      rcases hsound with h1 | h2
      · simp [cacheGet] at h1
      · exact h2
    have hname : (fieldsGet cf "name").isSome := by
      have hfull := hsound2.2.1
      unfold isFullEmployee at hfull
      rw [Bool.and_eq_true, Bool.and_eq_true] at hfull
      simpa [hasField] using hfull.2
    have hrepl : enrich (buildCache [] j) (.obj fs) = .obj (updFields fs cf) :=
      enrich_at_cached_stub (buildCache [] j) fs i cf hstub hid hcf
    have hpath := getAt_enrich (buildCache [] j) p j (.obj fs) hget hintact
    rw [hrepl] at hpath
    exact ⟨hpath, fieldsGet_updFields_of_isSome fs cf "name" hname, hname, hsound2⟩
  · intro p fs i hget hstub hid hintact hcf hno
    have hpath := getAt_enrich (buildCache [] j) p j (.obj fs) hget hintact
    rw [enrich_id_of_no_cached_stub (buildCache [] j) (.obj fs) hno] at hpath
    exact hpath

theorem enrichment_fills_stubs_witness :
    getAt
        (enrich
          (buildCache []
            (Json.arr
              [Json.obj [("contentType", Json.s "Employee"), ("id", Json.s "5"),
                ("name", Json.s "X")],
               Json.obj [("contentType", Json.s "Employee"), ("id", Json.s "5")]]))
          (Json.arr
            [Json.obj [("contentType", Json.s "Employee"), ("id", Json.s "5"),
              ("name", Json.s "X")],
             Json.obj [("contentType", Json.s "Employee"), ("id", Json.s "5")]]))
        [JsonStep.idx 1] =
      some (Json.obj
        (updFields [("contentType", Json.s "Employee"), ("id", Json.s "5")]
          [("contentType", Json.s "Employee"), ("id", Json.s "5"),
            ("name", Json.s "X")])) ∧
    fieldsGet
        (updFields [("contentType", Json.s "Employee"), ("id", Json.s "5")]
          [("contentType", Json.s "Employee"), ("id", Json.s "5"),
            ("name", Json.s "X")]) "name" = some (Json.s "X") := by
  have h := (enrichment_fills_stubs
      (Json.arr
        [Json.obj [("contentType", Json.s "Employee"), ("id", Json.s "5"),
          ("name", Json.s "X")],
         Json.obj [("contentType", Json.s "Employee"), ("id", Json.s "5")]])).2.1
    [JsonStep.idx 1]
    [("contentType", Json.s "Employee"), ("id", Json.s "5")]
    (Json.s "5")
    [("contentType", Json.s "Employee"), ("id", Json.s "5"), ("name", Json.s "X")]
    (by rfl) (by rfl) (by rfl) (by rfl) (by rfl)
  refine ⟨h.1, ?_⟩
  rw [h.2.1]
  rfl

/-! ### Feature parsing of NspdClient.get_object_info

Mirrors the post-success body of get_object_info (nspd_client.py lines
181-244) plus the pydantic validation of CadastralObject
(nspd_service/schemas.py).  The pyproj transformer is an external
dependency, taken as a function parameter; the related-objects helper is a
network call, its result taken as a parameter.  A present geometry dict is
modelled as truthy. -/

/-- Python truthiness of a JSON value. -/
def jsonTruthy : Json → Bool
  | .null => false
  | .b v => v
  | .s v => v ≠ ""
  | .num q => q ≠ 0
  | .arr l => !l.isEmpty
  | .obj fs => !fs.isEmpty

/-- Python: a or b, for optional strings (None and "" falsy). -/
def pyOrStr (a b : Option String) : Option String :=
  match a with
  | some v => if v = "" then b else some v
  | none => b

/-- Python: a or b, for optional numbers (None and 0 falsy). -/
def pyOrNum (a b : Option ℚ) : Option ℚ :=
  match a with
  | some v => if v = 0 then b else some v
  | none => b

/-- Python: a truthy int (non-None, non-zero). -/
def intTruthy : Option Int → Bool
  | some v => v ≠ 0
  | none => false

/-- feature["geometry"]: its "type" and raw "coordinates" entries. -/
structure NspdGeometry where
  geomType : Option String
  coordinates : Option Json
  deriving DecidableEq

/-- The properties.options upstream fields read by get_object_info. -/
structure NspdOptions where
  cad_num : Option String
  cad_number : Option String
  readable_address : Option String
  address_readable_address : Option String
  specified_area : Option ℚ
  build_record_area : Option ℚ
  params_area : Option ℚ
  land_record_area : Option ℚ
  area : Option ℚ
  params_extension : Option ℚ
  deriving DecidableEq

/-- feature["properties"]. -/
structure NspdProperties where
  categoryName : Option String
  category : Option Int
  options : NspdOptions
  deriving DecidableEq

/-- The first feature of the search response. -/
structure NspdFeature where
  id : Option Int
  properties : NspdProperties
  geometry : Option NspdGeometry
  deriving DecidableEq

/-- Point unpacking: for x, y in ring (exactly two numeric members). -/
def asCoordPair : Json → Option (ℚ × ℚ)
  | .arr [.num x, .num y] => some (x, y)
  | _ => none

def asRing (r : Json) : Option (List (ℚ × ℚ)) :=
  match r with
  | .arr pts => pts.mapM asCoordPair
  | _ => none

/-- Polygon coordinates: a list of rings of coordinate pairs. -/
def asPolygonRings (cjson : Json) : Option (List (List (ℚ × ℚ))) :=
  match cjson with
  | .arr rings => rings.mapM asRing
  | _ => none

/-- Point coordinates: point_coords[0], point_coords[1]. -/
def asPointCoords : Json → Option (ℚ × ℚ)
  | .arr (.num x :: .num y :: _) => some (x, y)
  | _ => none

/-- NspdClient._transform_polygon: the transformer applied to every vertex
of every ring, ring structure preserved. -/
def transformPolygon (tr : ℚ × ℚ → ℚ × ℚ) (rings : List (List (ℚ × ℚ))) :
    List (List (ℚ × ℚ)) :=
  rings.map fun ring => ring.map tr

inductive GeomKind where
  | point
  | polygon
  deriving DecidableEq

/-- Normalized coordinates_wgs84 payload: a point pair or polygon rings. -/
inductive Wgs84Coords where
  | pt : ℚ × ℚ → Wgs84Coords
  | poly : List (List (ℚ × ℚ)) → Wgs84Coords
  deriving DecidableEq

/-- The result_data dict built by get_object_info before validation; a field
of Option type is an absent-or-present key (geometry_type additionally may
be present holding None). -/
structure NspdResultData where
  cadastral_number : Option String
  category_name : Option String
  address : Option String
  area_sq_m : Option ℚ
  extension_m : Option ℚ
  geometry_type : Option (Option String)
  coordinates_wgs84 : Option Wgs84Coords
  centroid_wgs84 : Option (List ℚ)
  related_cadastral_numbers : Option (List String)
  original_geometry : Option NspdGeometry
  deriving DecidableEq

/-- CadastralObject (nspd_service/schemas.py): the validated model, with
geometry_type restricted to the Literal Point | Polygon. -/
structure CadastralObject where
  cadastralNumber : String
  categoryName : Option String
  address : Option String
  areaSqM : Option ℚ
  extensionM : Option ℚ
  geometryType : Option GeomKind
  coordinatesWgs84 : Option Wgs84Coords
  centroidWgs84 : Option (List ℚ)
  relatedCadastralNumbers : Option (List String)
  originalGeometry : Option NspdGeometry
  deriving DecidableEq

/-- CadastralObject.model_validate: cadastral_number must be a present
string; geometry_type, when present and non-None, must be the literal
"Point" or "Polygon"; anything else raises ValidationError (modelled as
none). -/
def validateCadastralObject (rd : NspdResultData) : Option CadastralObject :=
  match rd.cadastral_number with
  | none => none
  | some cadNum =>
    let kind? : Option (Option GeomKind) :=
      match rd.geometry_type with
      | none => some none
      | some none => some none
      | some (some t) =>
        if t = "Point" then some (some .point)
        else if t = "Polygon" then some (some .polygon)
        else none
    match kind? with
    | none => none
    | some kind =>
      some
        { cadastralNumber := cadNum
          categoryName := rd.category_name
          address := rd.address
          areaSqM := rd.area_sq_m
          extensionM := rd.extension_m
          geometryType := kind
          coordinatesWgs84 := rd.coordinates_wgs84
          centroidWgs84 := rd.centroid_wgs84
          relatedCadastralNumbers := rd.related_cadastral_numbers
          originalGeometry := rd.original_geometry }

inductive CoordsOrder where
  | lonLat
  | latLon
  deriving DecidableEq

/-- The post-success body of get_object_info (nspd_client.py lines 181-244)
on the first feature: characteristic-field extraction with Python or-chains,
best-effort related objects (their lookup result is the related parameter,
recorded only for truthy geom_id and category_id), geometry normalization
(Polygon: reproject all rings and compute the centroid; Point: reproject the
pair; any other kind: only the geometry_type key is set), the optional
lat,lon reordering, and the final model validation.  none models every path
on which the Python body raises and the enclosing handlers return None —
including the ValidationError raised on an unrecognized geometry_type. -/
def processFeature (tr : ℚ × ℚ → ℚ × ℚ) (coordsOrder : CoordsOrder)
    (feature : NspdFeature) (related : Option (List String)) :
    Option CadastralObject :=
  let options := feature.properties.options
  let cadNum := pyOrStr options.cad_num options.cad_number
  let address := pyOrStr options.readable_address options.address_readable_address
  let area := pyOrNum options.specified_area (pyOrNum options.build_record_area
    (pyOrNum options.params_area (pyOrNum options.land_record_area options.area)))
  let related2 : Option (List String) :=
    if intTruthy feature.id && intTruthy feature.properties.category then
      match related with
      | some l => if l.isEmpty then none else some l
      | none => none
    else none
  let base : NspdResultData :=
    { cadastral_number := cadNum
      category_name := feature.properties.categoryName
      address := address
      area_sq_m := area
      extension_m := options.params_extension
      geometry_type := none
      coordinates_wgs84 := none
      centroid_wgs84 := none
      related_cadastral_numbers := related2
      original_geometry := feature.geometry }
  let withGeom : Option NspdResultData :=
    match feature.geometry with
    | none => some base
    | some g =>
      match g.coordinates with
      | none => some base
      | some cjson =>
        if jsonTruthy cjson then
          match g.geomType with
          | some t =>
            if t = "Polygon" then
              match asPolygonRings cjson with
              | none => none
              | some rings =>
                let coordsWgs84 := transformPolygon tr rings
                match calculatePolygonCentroid coordsWgs84 with
                | none => none
                | some centroid =>
                  some { base with
                    geometry_type := some (some t)
                    coordinates_wgs84 := some (.poly coordsWgs84)
                    centroid_wgs84 := some centroid }
            else if t = "Point" then
              match asPointCoords cjson with
              | none => none
              | some xy =>
                some { base with
                  geometry_type := some (some t)
                  coordinates_wgs84 := some (.pt (tr xy)) }
            else
              some { base with geometry_type := some (some t) }
          | none => some { base with geometry_type := some none }
        else some base
  match withGeom with
  | none => none
  | some rd =>
    let rd2 :=
      match coordsOrder with
      | .lonLat => rd
      | .latLon =>
        let rdc :=
          match rd.coordinates_wgs84 with
          | some (.pt (x, y)) =>
            if rd.geometry_type = some (some "Point") then
              { rd with coordinates_wgs84 := some (.pt (y, x)) }
            else rd
          | some (.poly rings) =>
            if rd.geometry_type = some (some "Polygon") then
              let swapped : List (List (ℚ × ℚ)) := rings.map (fun (ring : List (ℚ × ℚ)) => List.map (fun (p : ℚ × ℚ) => (p.2, p.1)) ring)
              { rd with coordinates_wgs84 := some (.poly swapped) }
            else rd
          | none => rd
        match rdc.centroid_wgs84 with
        | some cen => if cen.isEmpty then rdc else { rdc with centroid_wgs84 := some cen.reverse }
        | none => rdc
    validateCadastralObject rd2

/-! ### Theorems for claim C2 -/

/-- C2 counterexample: a successful lookup whose first feature carries a
LineString geometry (a kind other than Point or Polygon) with a coordinates
payload makes get_object_info return None — the geometry_type value fails
the Literal Point | Polygon validation of CadastralObject and the generic
exception handler returns None — contradicting the claim that a
CadastralObject is always returned with the unrecognized geometry passed
through. -/
theorem unrecognized_geometry_with_coords_returns_none :
    processFeature (fun p => p) .lonLat
      ⟨some 1, ⟨some "Сооружение", some 7,
        ⟨some "39:03:000000:1", none, none, none, none, none, none, none, none, none⟩⟩,
        some ⟨some "LineString", some (Json.arr [Json.arr [Json.num 1, Json.num 2]])⟩⟩
      none = none := by rfl

/-- C2 (amended): for a successful lookup whose first feature carries a
geometry of a kind other than Point or Polygon, get_object_info returns a
CadastralObject with the raw original geometry retained and the normalized
fields (coordinates_wgs84 and centroid_wgs84) absent exactly when the
geometry carries no truthy coordinates payload (the geometry_type key is
then never set); when such a geometry carries a truthy coordinates payload,
get_object_info returns None, because geometry_type is set to the
unrecognized kind and CadastralObject validation rejects it. -/
theorem unrecognized_geometry_passthrough
    (tr : ℚ × ℚ → ℚ × ℚ) (ord : CoordsOrder) (feature : NspdFeature)
    (g : NspdGeometry) (k : String) (cn : String)
    (related : Option (List String))
    (hgeom : feature.geometry = some g)
    (hkind : g.geomType = some k) (hkp : k ≠ "Point") (hkpoly : k ≠ "Polygon")
    (hcad : pyOrStr feature.properties.options.cad_num
      feature.properties.options.cad_number = some cn) :
    (g.coordinates = none →
      ∃ obj, processFeature tr ord feature related = some obj ∧
        obj.originalGeometry = some g ∧ obj.geometryType = none ∧
        obj.coordinatesWgs84 = none ∧ obj.centroidWgs84 = none ∧
        obj.cadastralNumber = cn) ∧
    (∀ cjson : Json, g.coordinates = some cjson → jsonTruthy cjson = false →
      ∃ obj, processFeature tr ord feature related = some obj ∧
        obj.originalGeometry = some g ∧ obj.geometryType = none ∧
        obj.coordinatesWgs84 = none ∧ obj.centroidWgs84 = none ∧
        obj.cadastralNumber = cn) ∧
    (∀ cjson : Json, g.coordinates = some cjson → jsonTruthy cjson = true →
      processFeature tr ord feature related = none) := by
  obtain ⟨fid, props, geom⟩ := feature
  obtain ⟨gt, gc⟩ := g
  have hgeom2 : geom = some ⟨gt, gc⟩ := hgeom
  subst hgeom2
  have hkind2 : gt = some k := hkind
  subst hkind2
  refine ⟨?_, ?_, ?_⟩
  · intro hc
    have hc2 : gc = none := hc
    subst hc2
    simp only [processFeature, hcad, validateCadastralObject]
    cases ord <;> exact ⟨_, rfl, rfl, rfl, rfl, rfl, rfl⟩
  · intro cjson hc hfalsy
    have hc2 : gc = some cjson := hc
    subst hc2
    simp only [processFeature, hcad, validateCadastralObject, hfalsy,
      Bool.false_eq_true, if_false]
    cases ord <;> exact ⟨_, rfl, rfl, rfl, rfl, rfl, rfl⟩
  · intro cjson hc htruthy
    have hc2 : gc = some cjson := hc
    subst hc2
    simp only [processFeature, hcad, validateCadastralObject, htruthy, if_true,
      if_neg hkpoly, if_neg hkp]
    cases ord <;> simp [if_neg hkp, if_neg hkpoly]

theorem unrecognized_geometry_passthrough_witness :
    (∃ obj, processFeature (fun p => p) CoordsOrder.lonLat
        ⟨some 1, ⟨some "Сооружение", some 7,
          ⟨some "39:03:000000:1", none, none, none, none, none, none, none, none,
            none⟩⟩,
          some ⟨some "LineString", none⟩⟩ none = some obj ∧
      obj.originalGeometry = some ⟨some "LineString", none⟩ ∧
      obj.geometryType = none ∧ obj.coordinatesWgs84 = none ∧
      obj.centroidWgs84 = none ∧ obj.cadastralNumber = "39:03:000000:1") ∧
    processFeature (fun p => p) CoordsOrder.lonLat
      ⟨some 1, ⟨some "Сооружение", some 7,
        ⟨some "39:03:000000:1", none, none, none, none, none, none, none, none, none⟩⟩,
        some ⟨some "LineString", some (Json.arr [Json.arr [Json.num 1, Json.num 2]])⟩⟩
      none = none := by
  constructor
  · have h := (unrecognized_geometry_passthrough (fun p => p) CoordsOrder.lonLat
      ⟨some 1, ⟨some "Сооружение", some 7,
        ⟨some "39:03:000000:1", none, none, none, none, none, none, none, none, none⟩⟩,
        some ⟨some "LineString", none⟩⟩
      ⟨some "LineString", none⟩ "LineString" "39:03:000000:1" none
      rfl rfl (by decide) (by decide) rfl).1 rfl
    exact h
  · have h := (unrecognized_geometry_passthrough (fun p => p) CoordsOrder.lonLat
      ⟨some 1, ⟨some "Сооружение", some 7,
        ⟨some "39:03:000000:1", none, none, none, none, none, none, none, none, none⟩⟩,
        some ⟨some "LineString", some (Json.arr [Json.arr [Json.num 1, Json.num 2]])⟩⟩
      ⟨some "LineString", some (Json.arr [Json.arr [Json.num 1, Json.num 2]])⟩
      "LineString" "39:03:000000:1" none
      rfl rfl (by decide) (by decide) rfl).2.2
      (Json.arr [Json.arr [Json.num 1, Json.num 2]]) rfl (by rfl)
    exact h
